import Mathlib

/-!
Verification development for the Harmony Metadata Annotator.

The Python source (src/metadata_annotator/*.py) is shallowly embedded:
  * attribute mappings (Python `dict`) become functional maps
    `String → Option Value`;
  * fallible code (Python exceptions) returns `Except AnnotatorError _`;
  * `numpy.float64` arithmetic is modelled over exact rationals `ℚ`
    (the concrete values appearing in the configuration and examples are
    exactly representable in binary64, and the affine expressions in
    `geotransform.py` involve only additions and multiplications of such
    values);
  * regular-expression matching (`re.compile` / `.match` / `re.escape`)
    is embedded with an executable derivative-based matcher over a regex
    AST covering the constructs the configuration language uses
    (literals, escapes, `.`, groups, alternation, `*`, `+`, `?`).
    `re.match` anchors only at the beginning of the subject string;
    `re.fullmatch` requires the whole string to be consumed.
-/

namespace MetadataAnnotator

/-- Attribute values stored in a node's attribute mapping: strings, numbers,
numeric lists, or Python `None`. -/
inductive Value where
  | str : String → Value
  | int : Int → Value
  | list : List Int → Value
  | null : Value
deriving DecidableEq, Repr

/-- Python truthiness of an attribute value (`if subset_index_reference:`). -/
def Value.truthy : Value → Bool
  | .str s => s ≠ ""
  | .int n => n ≠ 0
  | .list l => ¬ l.isEmpty
  | .null => false

/-- Truthiness of `dict.get(key, None)`: `None` is falsy. -/
def optTruthy : Option Value → Bool
  | none => false
  | some v => v.truthy

/-- Errors raised by the annotator (metadata_annotator/exceptions.py). -/
inductive AnnotatorError where
  | invalidDimensionsConfiguration : String → Nat → Nat → AnnotatorError
  | missingSubsetIndexReference : String → AnnotatorError
  | invalidSubsetIndexShape : String → AnnotatorError
  | missingStartIndexConfiguration : String → AnnotatorError
  | invalidSpatialDimensionType : String → AnnotatorError
  | keyError : String → AnnotatorError
deriving DecidableEq, Repr

/-- A node's attribute mapping, name to value (absent = `none`). -/
def Attrs : Type := String → Option Value

/-- `is_temporary_attribute` (annotate.py): the name starts with the
reserved prefix `_*` (`attribute_name.startswith('_*')`) and has at least
one further character (`len(attribute_name) > 2`). -/
def is_temporary_attribute (attribute_name : String) : Bool :=
  match attribute_name.data with
  | '_' :: '*' :: rest => !rest.isEmpty
  | _ => false

/-- `datatree[path].attrs.update({k: v})` for one key: set or overwrite. -/
def setAttr (attrs : Attrs) (key : String) (value : Value) : Attrs :=
  fun n => if n = key then some value else attrs n

/-- `del datatree[path].attrs[key]` without the `try`: deleting an absent
attribute raises `KeyError`, mirroring Python `del` on a `dict`. -/
def delAttrChecked (attrs : Attrs) (key : String) : Except AnnotatorError Attrs :=
  if (attrs key).isSome then
    Except.ok (fun n => if n = key then none else attrs n)
  else
    Except.error (AnnotatorError.keyError key)

/-- The `try: del ... except KeyError: pass` block of
`update_metadata_attributes`: a failed deletion leaves the mapping as-is. -/
def tryDelAttr (attrs : Attrs) (key : String) : Attrs :=
  match delAttrChecked attrs key with
  | Except.ok updated => updated
  | Except.error _ => attrs

/-- `datatree[path].attrs.update(attributes_to_update)`. -/
def applyUpdates (attrs : Attrs) (updates : List (String × Value)) : Attrs :=
  updates.foldl (fun acc p => setAttr acc p.1 p.2) attrs

/-- The deletion loop of `update_metadata_attributes`. -/
def applyDeletes (attrs : Attrs) (deletions : List String) : Attrs :=
  deletions.foldl tryDelAttr attrs

/-- The `temp_attributes` dict of `update_metadata_attributes`: override
entries whose name is temporary (an in-memory side channel, never written). -/
def temp_attributes (matching_overrides : List (String × Value)) :
    List (String × Value) :=
  matching_overrides.filter (fun p => is_temporary_attribute p.1)

/-- The `attributes_to_update` dict of `update_metadata_attributes`:
non-temporary entries with a non-null value. -/
def attributes_to_update (matching_overrides : List (String × Value)) :
    List (String × Value) :=
  matching_overrides.filter
    (fun p => !is_temporary_attribute p.1 && p.2 ≠ Value.null)

/-- The `attributes_to_delete` set of `update_metadata_attributes`: the
override keys that are neither updated nor temporary. -/
def attributes_to_delete (matching_overrides : List (String × Value)) :
    List String :=
  (matching_overrides.map Prod.fst).filter
    (fun k =>
      !((attributes_to_update matching_overrides).map Prod.fst).contains k &&
      !((temp_attributes matching_overrides).map Prod.fst).contains k)

/-- `update_metadata_attributes` (annotate.py): given the matching override
mapping for a path, set every non-temporary, non-null entry, delete every
remaining (non-temporary, null-valued) entry, and never touch the node for
temporary entries. The overrides are a Python dict, so keys are unique. -/
def update_metadata_attributes (matching_overrides : List (String × Value))
    (attrs : Attrs) : Attrs :=
  applyDeletes (applyUpdates attrs (attributes_to_update matching_overrides))
    (attributes_to_delete matching_overrides)

/-- Regular expression AST for the subset of Python `re` syntax used by the
annotator configuration: literals, escaped literals, `.`, groups,
alternation and the repetition operators. -/
inductive Regex where
  | fail : Regex
  | eps : Regex
  | char : Char → Regex
  | dot : Regex
  | concat : Regex → Regex → Regex
  | alt : Regex → Regex → Regex
  | star : Regex → Regex
deriving DecidableEq, Repr

/-- Does the regex accept the empty string? -/
def Regex.nullable : Regex → Bool
  | .fail => false
  | .eps => true
  | .char _ => false
  | .dot => false
  | .concat r1 r2 => r1.nullable && r2.nullable
  | .alt r1 r2 => r1.nullable || r2.nullable
  | .star _ => true

/-- Brzozowski derivative of a regex with respect to one character. -/
def Regex.deriv : Regex → Char → Regex
  | .fail, _ => .fail
  | .eps, _ => .fail
  | .char c, d => if c = d then .eps else .fail
  | .dot, _ => .eps
  | .concat r1 r2, d =>
      if r1.nullable then .alt (.concat (r1.deriv d) r2) (r2.deriv d)
      else .concat (r1.deriv d) r2
  | .alt r1 r2, d => .alt (r1.deriv d) (r2.deriv d)
  | .star r, d => .concat (r.deriv d) (.star r)

/-- Whole-input matching: the regex accepts exactly this character list. -/
def Regex.fullmatchChars : Regex → List Char → Bool
  | r, [] => r.nullable
  | r, c :: cs => (r.deriv c).fullmatchChars cs

/-- Anchored-at-start matching: the regex accepts some prefix (possibly
empty, possibly the whole input) of the character list.  This is the
semantics of Python's `re.Pattern.match`. -/
def Regex.matchChars : Regex → List Char → Bool
  | r, [] => r.nullable
  | r, c :: cs => r.nullable || (r.deriv c).matchChars cs

/-- `compiled.fullmatch(s) is not None`: the match must span the whole
subject string (anchored at both ends). -/
def re_fullmatch (r : Regex) (s : String) : Bool :=
  r.fullmatchChars s.data

/-- `compiled.match(s) is not None`: the match is anchored at the start of
the subject string only; it may cover just a prefix. -/
def re_match (r : Regex) (s : String) : Bool :=
  r.matchChars s.data

/-- Apply a repetition operator (`*`, `+`, `?`) following an atom. -/
def applyRepeatOp (r : Regex) : List Char → Regex × List Char
  | '*' :: rest => (Regex.star r, rest)
  | '+' :: rest => (Regex.concat r (Regex.star r), rest)
  | '?' :: rest => (Regex.alt r Regex.eps, rest)
  | rest => (r, rest)

mutual

/-- Parse an alternation (`a|b|c`), the top level of a pattern. -/
def parseAlt : Nat → List Char → Option (Regex × List Char)
  | 0, _ => none
  | fuel + 1, l =>
    match parseSeq fuel l with
    | none => none
    | some (r, rest) =>
      match rest with
      | '|' :: rest2 =>
        match parseAlt fuel rest2 with
        | none => none
        | some (r2, rest3) => some (Regex.alt r r2, rest3)
      | _ => some (r, rest)

/-- Parse a concatenation of repeated atoms. -/
def parseSeq : Nat → List Char → Option (Regex × List Char)
  | 0, _ => none
  | fuel + 1, l =>
    match l with
    | [] => some (Regex.eps, [])
    | ')' :: _ => some (Regex.eps, l)
    | '|' :: _ => some (Regex.eps, l)
    | _ =>
      match parseBase fuel l with
      | none => none
      | some (r, rest) =>
        let (r1, rest1) := applyRepeatOp r rest
        match parseSeq fuel rest1 with
        | none => none
        | some (r2, rest2) => some (Regex.concat r1 r2, rest2)

/-- Parse a single atom: a group, an escaped character, `.`, or a literal. -/
def parseBase : Nat → List Char → Option (Regex × List Char)
  | 0, _ => none
  | fuel + 1, '(' :: rest =>
    match parseAlt fuel rest with
    | some (r, ')' :: rest2) => some (r, rest2)
    | _ => none
  | _ + 1, '\\' :: c :: rest => some (Regex.char c, rest)
  | _ + 1, '.' :: rest => some (Regex.dot, rest)
  | _ + 1, c :: rest =>
    if c = ')' || c = '|' || c = '*' || c = '+' || c = '?' || c = '\\' || c = '('
    then none
    else some (Regex.char c, rest)
  | _ + 1, [] => none

end

/-- `re.compile(pattern_string)`: `none` models `re.error` (an unparsable
pattern is a fatal configuration error). -/
def re_compile (pattern_string : String) : Option Regex :=
  match parseAlt (4 * pattern_string.length + 4) pattern_string.data with
  | some (r, []) => some r
  | _ => none

/-- The characters Python's `re.escape` prefixes with a backslash. -/
def pythonReSpecialChars : List Char :=
  ['(', ')', '[', ']', '\x7b', '\x7d', '?', '*', '+', '-', '|', '^', '$',
   '\\', '.', '&', '~', '#', ' ', '\t', '\n', '\r', '\x0b', '\x0c']

/-- `re.escape`: backslash-escape every regex metacharacter. -/
def re_escape (s : String) : String :=
  String.mk
    (s.data.foldr
      (fun c acc =>
        if pythonReSpecialChars.contains c then '\\' :: c :: acc else c :: acc)
      [])

/-- `is_exact_path` (annotate.py): a pattern string is an exact path when
escaping it reproduces it unchanged, i.e. it has no regex metacharacters. -/
def is_exact_path (pattern_string : String) : Bool :=
  decide (re_escape pattern_string = pattern_string)

/-- `get_matching_groups_and_variables` (annotate.py): for every override
pattern of the live rule set, compile it and test it with `re.match`
against every group path and every variable path; union all hits.  A
pattern with zero hits that is an exact path is recorded as a missing
variable.  The `Except.error` case models `re.error` escaping from
`re.compile`. -/
def get_matching_groups_and_variables :
    List String → List String → List String →
      Except String (List String × List String)
  | [], _, _ => Except.ok ([], [])
  | pattern_string :: rest_patterns, groups, vars =>
    match re_compile pattern_string with
    | none => Except.error "re.error"
    | some override_pattern =>
      let pattern_matches :=
        groups.filter (fun g => re_match override_pattern g) ++
          vars.filter (fun v => re_match override_pattern v)
      match get_matching_groups_and_variables rest_patterns groups vars with
      | Except.error e => Except.error e
      | Except.ok (matched_items, missing_variables) =>
        Except.ok
          (pattern_matches ++ matched_items,
           if pattern_matches.isEmpty && is_exact_path pattern_string then
             pattern_string :: missing_variables
           else missing_variables)

/-- Python whitespace characters recognised by `str.split()`/`str.strip()`:
space, tab, newline, carriage return, vertical tab, form feed. -/
def pyIsSpaceChar (c : Char) : Bool :=
  c = ' ' || c = '\t' || c = '\n' || c = '\r' || c = '\x0b' || c = '\x0c'

/-- Accumulator pass for `pySplitWhitespace`: `acc` holds the current word
reversed. -/
def pySplitWhitespaceAux : List Char → List Char → List String
  | acc, [] => if acc.isEmpty then [] else [String.mk acc.reverse]
  | acc, c :: rest =>
      if pyIsSpaceChar c then
        if acc.isEmpty then pySplitWhitespaceAux [] rest
        else String.mk acc.reverse :: pySplitWhitespaceAux [] rest
      else pySplitWhitespaceAux (c :: acc) rest

/-- Python `str.split()` with no argument: split on runs of whitespace and
drop empty pieces. -/
def pySplitWhitespace (s : String) : List String :=
  pySplitWhitespaceAux [] s.data

/-- Python `str.strip()`: drop surrounding whitespace. -/
def pyStrip (s : String) : String :=
  String.mk (((s.data.dropWhile pyIsSpaceChar).reverse.dropWhile pyIsSpaceChar).reverse)

/-- First-match association-list lookup (used to model a Python dict built
with `dict(zip(...))`; the dict's last-key-wins behaviour is obtained by
looking the reversed list up). -/
def dictLookup : List (String × String) → String → Option String
  | [], _ => none
  | p :: rest, k => if k = p.1 then some p.2 else dictLookup rest k

/-- `update_dimension_names` (annotate.py): split the node's `dimensions`
attribute on whitespace; when the resulting list is non-empty, require its
length to equal the variable's positional dimension count
(`InvalidDimensionsConfiguration` otherwise, carrying the variable path,
the configured count and the dimension count), then rename the positional
dimensions through `dict(zip(source_dims, rename_dim_list))`.  The result
is the variable's dimension-name list after `DataArray.rename`. -/
def update_dimension_names (variable_to_update : String)
    (dimensions_attr : String) (dims : List String) :
    Except AnnotatorError (List String) :=
  let rename_dim_list := pySplitWhitespace dimensions_attr
  if rename_dim_list.isEmpty then
    Except.ok dims
  else if dims.length ≠ rename_dim_list.length then
    Except.error
      (AnnotatorError.invalidDimensionsConfiguration variable_to_update
        rename_dim_list.length dims.length)
  else
    let source_dims := dims.take rename_dim_list.length
    let rename_dict := source_dims.zip rename_dim_list
    Except.ok (dims.map (fun d => (dictLookup rename_dict.reverse d).getD d))

/-- GDAL-style six-element geotransform (geotransform.py), over exact
rationals standing for the `numpy.float64` coefficients. -/
structure Geotransform where
  top_left_x : ℚ
  pixel_width : ℚ
  row_rotation : ℚ
  top_left_y : ℚ
  column_rotation : ℚ
  pixel_height : ℚ
deriving DecidableEq, Repr

/-- `Geotransform.col_row_to_xy`: convert a grid cell location to an x,y
coordinate, sampling at the pixel center `(col + 0.5, row + 0.5)`. -/
def Geotransform.col_row_to_xy (g : Geotransform) (col row : ℚ) : ℚ × ℚ :=
  let adj_col := col + 1 / 2
  let adj_row := row + 1 / 2
  (g.top_left_x + adj_col * g.pixel_width + adj_row * g.row_rotation,
   g.top_left_y + adj_col * g.column_rotation + adj_row * g.pixel_height)

/-- `geotransform_from_config`: build a `Geotransform` from the
six-element configuration list (positional access, GDAL order). -/
def geotransform_from_config (geotransform_info : List ℚ) : Geotransform :=
  { top_left_x := geotransform_info.getD 0 0
    pixel_width := geotransform_info.getD 1 0
    row_rotation := geotransform_info.getD 2 0
    top_left_y := geotransform_info.getD 3 0
    column_rotation := geotransform_info.getD 4 0
    pixel_height := geotransform_info.getD 5 0 }

/-- `compute_dimension_scale` (geotransform.py): for axis `x`, sample
`col_row_to_xy(i, 0)` for `i` in `[start_index, start_index + dim_size)`
and keep the x component; for axis `y`, sample `col_row_to_xy(0, i)` and
keep the y component; any other axis raises `InvalidSpatialDimensionType`.
The cast to the configured dtype is the identity on these exact values. -/
def compute_dimension_scale (start_index : ℤ) (dim_size : Nat)
    (spatial_dimension_type : String) (geotransform_config : List ℚ) :
    Except AnnotatorError (List ℚ) :=
  let geotransform := geotransform_from_config geotransform_config
  if spatial_dimension_type = "x" then
    Except.ok
      ((List.range dim_size).map
        (fun i : ℕ => (geotransform.col_row_to_xy ((start_index : ℚ) + (i : ℚ)) 0).1))
  else if spatial_dimension_type = "y" then
    Except.ok
      ((List.range dim_size).map
        (fun i : ℕ => (geotransform.col_row_to_xy 0 ((start_index : ℚ) + (i : ℚ))).2))
  else
    Except.error (AnnotatorError.invalidSpatialDimensionType spatial_dimension_type)

/-- An n-dimensional integer array: its shape and its row-major flattened
values.  `values[0][0]` of a 2-D array is the first flattened element. -/
structure NdVar where
  shape : List Nat
  flat : List Int
deriving DecidableEq, Repr

/-- `ndarray.ndim`: the rank of the array. -/
def NdVar.ndim (v : NdVar) : Nat := v.shape.length

/-- The variables reachable in the opened `DataTree`, by absolute path. -/
def DataTreeVars : Type := String → Option NdVar

/-- `get_start_index_from_row_col_variable` (annotate.py): look the
referenced variable up in the datatree (`MissingSubsetIndexReference` when
absent), require it to be exactly 2-D (`InvalidSubsetIndexShape`
otherwise), and return its `values[0][0]`. -/
def get_start_index_from_row_col_variable (datatree : DataTreeVars)
    (subset_index_reference : String) : Except AnnotatorError Int :=
  match datatree subset_index_reference with
  | none =>
      Except.error (AnnotatorError.missingSubsetIndexReference subset_index_reference)
  | some row_col_variable =>
      if row_col_variable.ndim ≠ 2 then
        Except.error (AnnotatorError.invalidSubsetIndexShape subset_index_reference)
      else
        Except.ok (row_col_variable.flat.getD 0 0)

/-- `get_start_index_from_history` (history_functions.py): the dimension's
entry in the dimension index map, defaulting to 0. -/
def get_start_index_from_history (dimension_index_map : List (String × Int))
    (dimension_variable_path : String) : Int :=
  match dimension_index_map.lookup dimension_variable_path with
  | some idx => idx
  | none => 0

/-- `get_grid_start_index` (annotate.py): if the configured
`_*subset_index_reference` attribute is truthy, use the reference-variable
strategy; otherwise if `_*corner_point_offsets` equals
`history_subset_index_ranges`, use the history-derived map; otherwise
raise `MissingStartIndexConfiguration`. A truthy non-string reference
would fail as a datatree key and is modelled as a `keyError`. -/
def get_grid_start_index (datatree : DataTreeVars)
    (dimension_index_map : List (String × Int))
    (dimension_variable_path : String) (var_attributes : Attrs) :
    Except AnnotatorError Int :=
  if optTruthy (var_attributes "_*subset_index_reference") then
    match var_attributes "_*subset_index_reference" with
    | some (Value.str s) => get_start_index_from_row_col_variable datatree s
    | _ => Except.error (AnnotatorError.keyError "unhashable datatree key")
  else if var_attributes "_*corner_point_offsets"
      = some (Value.str "history_subset_index_ranges") then
    Except.ok (get_start_index_from_history dimension_index_map dimension_variable_path)
  else
    Except.error (AnnotatorError.missingStartIndexConfiguration dimension_variable_path)

/-- The first loop of `get_index_range_substring`: index of the first `[`
in the string, if any. -/
def firstIdxOf (target : Char) : List Char → Option Nat
  | [] => none
  | c :: rest =>
      if c = target then some 0 else (firstIdxOf target rest).map Nat.succ

/-- State machine equivalent to `re.findall(r'\[(.*?)\]', s)`: outside a
bracket, skip until `[`; inside, accumulate content (which may itself
contain `[`) until the first `]` closes the group. An unclosed trailing
group yields nothing. -/
def findBracketGroupsAux : Option (List Char) → List Char → List (List Char)
  | _, [] => []
  | none, c :: rest =>
      if c = '[' then findBracketGroupsAux (some []) rest
      else findBracketGroupsAux none rest
  | some acc, c :: rest =>
      if c = ']' then acc.reverse :: findBracketGroupsAux none rest
      else findBracketGroupsAux (some (c :: acc)) rest

/-- `re.findall(r'\[(.*?)\]', s)` over a character list. -/
def findBracketGroups (l : List Char) : List (List Char) :=
  findBracketGroupsAux none l

/-- `get_index_range_substring` (history_functions.py): locate the first
`[` and the last `]`; when both exist in order, the variable is the text
before the first `[` and the index ranges are the non-greedy bracketed
groups of the enclosed slice; otherwise return `('', [])`. -/
def get_index_range_substring (index_range_string : String) :
    String × List String :=
  if index_range_string = "" then ("", [])
  else
    let chars := index_range_string.data
    match firstIdxOf '[' chars with
    | none => ("", [])
    | some start_index =>
      match firstIdxOf ']' chars.reverse with
      | none => ("", [])
      | some j =>
        let end_index := chars.length - 1 - j
        if start_index ≤ end_index then
          (String.mk (chars.take start_index),
           (findBracketGroups
               ((chars.drop start_index).take (end_index + 1 - start_index))).map
             String.mk)
        else ("", [])

/-- Decimal digit-string parse, `none` when any character is not a digit
or the string is empty. -/
def parseDigits (l : List Char) : Option Nat :=
  if l.isEmpty then none
  else if l.all Char.isDigit then
    some (l.foldl (fun acc c => acc * 10 + (c.toNat - '0'.toNat)) 0)
  else none

/-- Python `int(s)`: optional surrounding whitespace, optional sign, then
decimal digits; `none` models the `ValueError` on malformed input. -/
def py_int (s : String) : Option Int :=
  match (pyStrip s).data with
  | '-' :: rest => (parseDigits rest).map (fun n => -(n : Int))
  | '+' :: rest => (parseDigits rest).map (fun n => (n : Int))
  | l => (parseDigits l).map (fun n => (n : Int))

/-- `dim.split(':')[0]`: the text before the first `:` (the whole string
when it holds no `:`). -/
def pyFirstColonField (dim : String) : String :=
  String.mk (dim.data.takeWhile (fun c => c ≠ ':'))

/-- The per-entry start-index extraction of
`parse_start_indices_from_history_attr` (history_functions.py):
`int(dim.split(':')[0]) if dim else 0` for each bracket group; `none`
models the `ValueError` a malformed index raises. -/
def entryStartIndices (dim_indices : List String) : Option (List Int) :=
  dim_indices.mapM
    (fun dim => if dim = "" then some 0 else py_int (pyFirstColonField dim))

/-- One history provenance entry, parsed: the variable path before the
first `[` paired with one start index per bracket group. -/
def parse_history_entry (entry : String) : Option (String × List Int) :=
  let (variable_path, dim_indices) := get_index_range_substring entry
  (entryStartIndices dim_indices).map (fun starts => (variable_path, starts))

/-- The value the claim ascribes to a bracket group: the left side of `:`,
or 0 when the bracket is empty. -/
def claimedStartIndex (dim : String) : Int :=
  if dim = "" then 0 else (py_int (pyFirstColonField dim)).getD 0

/-- A bracketed history group rendered back to characters. -/
def bracketed (g : String) : List Char := '[' :: (g.data ++ [']'])

/-- A well-formed history provenance entry
`VARIABLE_PATH[r0:r1][r2:r3]...` assembled from its variable path and its
bracket-group contents. -/
def historyEntry (variable_path : String) (gs : List String) : String :=
  String.mk (variable_path.data ++ (gs.map bracketed).flatten)

/-- `annotate_granule` (annotate.py): when the granule's collection has a
non-empty live metadata-override rule set, amend the file's metadata;
otherwise copy the input file byte-for-byte to the output location.  The
amendment path runs through external `xarray` I/O and is abstracted as a
function on the file bytes; the short-circuit branch never invokes it. -/
def annotate_granule (metadata_overrides : List (String × List (String × Value)))
    (amend_in_file_metadata : List Nat → List Nat) (input_file : List Nat) :
    List Nat :=
  if metadata_overrides.length ≠ 0 then amend_in_file_metadata input_file
  else input_file

theorem tryDelAttr_apply (attrs : Attrs) (key n : String) :
    tryDelAttr attrs key n = if n = key then none else attrs n := by
  unfold tryDelAttr delAttrChecked
  by_cases hk : (attrs key).isSome
  · simp [hk]
  · simp only [hk, Bool.false_eq_true, if_false]
    by_cases hn : n = key
    · subst hn
      simp only [if_pos rfl]
      exact Option.not_isSome_iff_eq_none.mp hk
    · simp [hn]

theorem applyDeletes_apply_of_not_mem (attrs : Attrs) (deletions : List String)
    (n : String) (h : n ∉ deletions) :
    applyDeletes attrs deletions n = attrs n := by
  induction deletions generalizing attrs with
  | nil => rfl
  | cons d rest ih =>
      have hn : n ≠ d := fun hnd => h (hnd ▸ List.mem_cons_self d rest)
      have hrest : n ∉ rest := fun hr => h (List.mem_cons_of_mem d hr)
      calc applyDeletes attrs (d :: rest) n
          = applyDeletes (tryDelAttr attrs d) rest n := rfl
        _ = tryDelAttr attrs d n := ih _ hrest
        _ = attrs n := by rw [tryDelAttr_apply]; simp [hn]

theorem applyDeletes_apply_of_mem (attrs : Attrs) (deletions : List String)
    (n : String) (h : n ∈ deletions) :
    applyDeletes attrs deletions n = none := by
  induction deletions generalizing attrs with
  | nil => cases h
  | cons d rest ih =>
      by_cases hr : n ∈ rest
      · exact ih (tryDelAttr attrs d) hr
      · have hn : n = d := by
          rcases List.mem_cons.mp h with h1 | h2
          · exact h1
          · exact absurd h2 hr
        subst hn
        calc applyDeletes attrs (n :: rest) n
            = applyDeletes (tryDelAttr attrs n) rest n := rfl
          _ = tryDelAttr attrs n n := applyDeletes_apply_of_not_mem _ _ _ hr
          _ = none := by rw [tryDelAttr_apply]; simp

theorem applyUpdates_apply_of_not_mem (attrs : Attrs)
    (updates : List (String × Value)) (n : String)
    (h : n ∉ updates.map Prod.fst) :
    applyUpdates attrs updates n = attrs n := by
  induction updates generalizing attrs with
  | nil => rfl
  | cons u rest ih =>
      have hn : n ≠ u.1 := by
        intro hnu
        exact h (by simp [hnu])
      have hrest : n ∉ rest.map Prod.fst := by
        intro hr
        exact h (by simp [List.mem_cons]; right; simpa using hr)
      calc applyUpdates attrs (u :: rest) n
          = applyUpdates (setAttr attrs u.1 u.2) rest n := rfl
        _ = setAttr attrs u.1 u.2 n := ih _ hrest
        _ = attrs n := by simp [setAttr, hn]

theorem dictLookup_append (l₁ l₂ : List (String × String)) (k : String) :
    dictLookup (l₁ ++ l₂) k =
      match dictLookup l₁ k with
      | some v => some v
      | none => dictLookup l₂ k := by
  induction l₁ with
  | nil => rfl
  | cons p rest ih =>
      by_cases hk : k = p.1
      · simp [dictLookup, hk]
      · simp [dictLookup, hk, ih]

theorem dictLookup_eq_none (l : List (String × String)) (k : String)
    (h : k ∉ l.map Prod.fst) : dictLookup l k = none := by
  induction l with
  | nil => rfl
  | cons p rest ih =>
      simp only [List.map_cons, List.mem_cons, not_or] at h
      simp [dictLookup, h.1]
      exact ih h.2

theorem map_dictZip_reverse (a b : List String) (hlen : a.length = b.length)
    (hnd : a.Nodup) :
    a.map (fun d => (dictLookup ((a.zip b).reverse) d).getD d) = b := by
  induction a generalizing b with
  | nil =>
      cases b with
      | nil => rfl
      | cons _ _ => simp at hlen
  | cons d a_tail ih =>
      cases b with
      | nil => simp at hlen
      | cons r b_tail =>
          have hlen2 : a_tail.length = b_tail.length := by simpa using hlen
          have hnd2 : a_tail.Nodup := (List.nodup_cons.mp hnd).2
          have hdnot : d ∉ a_tail := (List.nodup_cons.mp hnd).1
          have hz : ((d :: a_tail).zip (r :: b_tail)).reverse =
              (a_tail.zip b_tail).reverse ++ [(d, r)] := by
            simp [List.zip_cons_cons]
          rw [hz, List.map_cons]
          have hhead :
              (dictLookup ((a_tail.zip b_tail).reverse ++ [(d, r)]) d).getD d = r := by
            rw [dictLookup_append]
            have hnone : dictLookup (a_tail.zip b_tail).reverse d = none := by
              apply dictLookup_eq_none
              intro hm
              apply hdnot
              have hm2 : d ∈ (a_tail.zip b_tail).map Prod.fst := by
                simpa using hm
              have hsub := List.map_fst_zip a_tail b_tail (le_of_eq hlen2)
              rw [hsub] at hm2
              exact hm2
            rw [hnone]
            simp [dictLookup]
          have htail :
              a_tail.map
                  (fun x => (dictLookup ((a_tail.zip b_tail).reverse ++ [(d, r)]) x).getD x) =
                a_tail.map
                  (fun x => (dictLookup ((a_tail.zip b_tail).reverse) x).getD x) := by
            apply List.map_congr_left
            intro x hx
            rw [dictLookup_append]
            cases hdl : dictLookup (a_tail.zip b_tail).reverse x with
            | some v => simp
            | none =>
                have hxd : x ≠ d := fun he => hdnot (he ▸ hx)
                simp [dictLookup, hxd]
          rw [hhead, htail, ih b_tail hlen2 hnd2]

/-- A helper for C7: the reference-variable strategy never raises
`MissingStartIndexConfiguration`. -/
theorem row_col_strategy_ne_missing_start (datatree : DataTreeVars)
    (s p : String) :
    get_start_index_from_row_col_variable datatree s ≠
      Except.error (AnnotatorError.missingStartIndexConfiguration p) := by
  unfold get_start_index_from_row_col_variable
  cases datatree s with
  | none => simp
  | some v =>
      by_cases hv : v.ndim ≠ 2 <;> simp [hv]

/-- C2: for every granule whose collection has an empty live override-rule
set, `annotate_granule` short-circuits to `shutil.copy`, so the output file
is a byte-identical copy of the input: no tree mutation at all, no history
line appended, no attribute changed. -/
theorem annotate_granule_empty_rules_copies
    (amend : List Nat → List Nat) (input_file : List Nat) :
    annotate_granule [] amend input_file = input_file := by
  simp [annotate_granule]

/-- C3 (amended): the reference-variable strategy raises
`MissingSubsetIndexReference` when the referenced variable is absent,
raises `InvalidSubsetIndexShape` when its rank is not exactly 2 (so also
for rank ≥ 3), and for rank exactly 2 returns `values[0][0]`; the
reference index array `[[5,6,7],[5,6,7],[5,6,7]]` yields start index 5. -/
theorem get_start_index_from_row_col_variable_spec (datatree : DataTreeVars)
    (ref : String) :
    (datatree ref = none →
      get_start_index_from_row_col_variable datatree ref =
        Except.error (AnnotatorError.missingSubsetIndexReference ref)) ∧
    (∀ v, datatree ref = some v → v.ndim ≠ 2 →
      get_start_index_from_row_col_variable datatree ref =
        Except.error (AnnotatorError.invalidSubsetIndexShape ref)) ∧
    (∀ v, datatree ref = some v → v.ndim = 2 →
      get_start_index_from_row_col_variable datatree ref =
        Except.ok (v.flat.getD 0 0)) ∧
    get_start_index_from_row_col_variable
      (fun p => if p = "/reference" then
          some ⟨[3, 3], [5, 6, 7, 5, 6, 7, 5, 6, 7]⟩ else none)
      "/reference" = Except.ok 5 := by
  refine ⟨?_, ?_, ?_, ?_⟩
  · intro h
    simp [get_start_index_from_row_col_variable, h]
  · intro v h hv
    simp [get_start_index_from_row_col_variable, h, hv]
  · intro v h hv
    simp [get_start_index_from_row_col_variable, h, hv]
  · rfl

/-- C3 counterexample: a referenced variable of rank 3 (so rank ≥ 2)
makes the reference strategy raise `InvalidSubsetIndexShape` rather than
return the value at position (0,0) of its trailing two axes, so the claim
that every rank ≥ 2 reference yields a start index is false. -/
theorem get_start_index_rank_three_counterexample :
    NdVar.ndim ⟨[2, 2, 2], [5, 6, 7, 5, 6, 7, 5, 6]⟩ ≥ 2 ∧
    get_start_index_from_row_col_variable
      (fun p => if p = "/reference3d" then
          some ⟨[2, 2, 2], [5, 6, 7, 5, 6, 7, 5, 6]⟩ else none)
      "/reference3d" =
      Except.error (AnnotatorError.invalidSubsetIndexShape "/reference3d") := by
  constructor
  · decide
  · rfl

/-- Witness for the C3 theorem at a concrete input: an empty datatree makes
the reference strategy fail with `MissingSubsetIndexReference`. -/
theorem get_start_index_from_row_col_variable_spec_witness :
    get_start_index_from_row_col_variable (fun _ => none) "/missing" =
      Except.error (AnnotatorError.missingSubsetIndexReference "/missing") :=
  (get_start_index_from_row_col_variable_spec (fun _ => none) "/missing").1 rfl

/-- C5: `compute_dimension_scale` on a six-element geotransform produces
exactly `dim_size` values; for axis `x` the i-th value is the x component
of `col_row_to_xy(start + i, 0) = originX + (start+i+0.5)*pixelWidth +
0.5*rowRotation`, for axis `y` the y component of
`col_row_to_xy(0, start + i)`; and
`compute_dimension_scale(0, 3, "x", float64, [-9000000, 36000, 0, 9000000,
0, -36000])` is `[-8982000.0, -8946000.0, -8910000.0]`. -/
theorem compute_dimension_scale_spec (s : ℤ) (n : ℕ) (ox pw rr oy cr ph : ℚ) :
    (∃ xs, compute_dimension_scale s n "x" [ox, pw, rr, oy, cr, ph] = Except.ok xs ∧
      xs.length = n ∧
      ∀ i, i < n →
        xs.getD i 0 =
          ((geotransform_from_config [ox, pw, rr, oy, cr, ph]).col_row_to_xy
              ((s : ℚ) + i) 0).1 ∧
        xs.getD i 0 = ox + ((s : ℚ) + i + 1 / 2) * pw + (1 / 2) * rr) ∧
    (∃ ys, compute_dimension_scale s n "y" [ox, pw, rr, oy, cr, ph] = Except.ok ys ∧
      ys.length = n ∧
      ∀ i, i < n →
        ys.getD i 0 =
          ((geotransform_from_config [ox, pw, rr, oy, cr, ph]).col_row_to_xy
              0 ((s : ℚ) + i)).2 ∧
        ys.getD i 0 = oy + (1 / 2) * cr + ((s : ℚ) + i + 1 / 2) * ph) ∧
    compute_dimension_scale 0 3 "x" [-9000000, 36000, 0, 9000000, 0, -36000] =
      Except.ok [-8982000, -8946000, -8910000] := by
  refine
    ⟨⟨(List.range n).map
        (fun i : ℕ =>
          ((geotransform_from_config [ox, pw, rr, oy, cr, ph]).col_row_to_xy
              ((s : ℚ) + (i : ℚ)) 0).1),
      rfl, by simp, ?_⟩,
     ⟨(List.range n).map
        (fun i : ℕ =>
          ((geotransform_from_config [ox, pw, rr, oy, cr, ph]).col_row_to_xy
              0 ((s : ℚ) + (i : ℚ))).2),
      rfl, by simp, ?_⟩, ?_⟩
  · intro i hi
    rw [List.getD_eq_getElem?_getD, List.getElem?_map, List.getElem?_range hi]
    refine ⟨rfl, ?_⟩
    simp only [Option.map_some, Option.getD_some, geotransform_from_config,
      Geotransform.col_row_to_xy, List.getD]
    norm_num
  · intro i hi
    rw [List.getD_eq_getElem?_getD, List.getElem?_map, List.getElem?_range hi]
    refine ⟨rfl, ?_⟩
    simp only [Option.map_some, Option.getD_some, geotransform_from_config,
      Geotransform.col_row_to_xy, List.getD]
    norm_num
  · norm_num [compute_dimension_scale, geotransform_from_config,
      Geotransform.col_row_to_xy, List.range_succ]

/-- Witness for the C5 theorem, extracting the concrete dimension scale of
the claim from the theorem applied at the example geotransform. -/
theorem compute_dimension_scale_spec_witness :
    compute_dimension_scale 0 3 "x" [-9000000, 36000, 0, 9000000, 0, -36000] =
      Except.ok [-8982000, -8946000, -8910000] :=
  (compute_dimension_scale_spec 0 3 (-9000000) 36000 0 9000000 0 (-36000)).2.2

/-- C7: `get_grid_start_index` raises `MissingStartIndexConfiguration` iff
the dimension's configuration carries neither a truthy
`_*subset_index_reference` attribute nor the `_*corner_point_offsets`
history flag; and when both strategies are configured at once, the
reference-variable strategy is used and the history-derived dimension
index map is never consulted. -/
theorem get_grid_start_index_spec (datatree : DataTreeVars)
    (dimension_index_map : List (String × Int)) (dimension_variable_path : String)
    (var_attributes : Attrs) :
    (get_grid_start_index datatree dimension_index_map dimension_variable_path
          var_attributes =
        Except.error
          (AnnotatorError.missingStartIndexConfiguration dimension_variable_path) ↔
      optTruthy (var_attributes "_*subset_index_reference") = false ∧
        var_attributes "_*corner_point_offsets" ≠
          some (Value.str "history_subset_index_ranges")) ∧
    (∀ s, var_attributes "_*subset_index_reference" = some (Value.str s) → s ≠ "" →
      var_attributes "_*corner_point_offsets" =
          some (Value.str "history_subset_index_ranges") →
      ∀ map2 : List (String × Int),
        get_grid_start_index datatree dimension_index_map dimension_variable_path
            var_attributes =
          get_start_index_from_row_col_variable datatree s ∧
        get_grid_start_index datatree dimension_index_map dimension_variable_path
            var_attributes =
          get_grid_start_index datatree map2 dimension_variable_path
            var_attributes) := by
  constructor
  · by_cases htr : optTruthy (var_attributes "_*subset_index_reference") = true
    · constructor
      · intro hres
        exfalso
        rw [get_grid_start_index, htr, if_pos rfl] at hres
        cases hv : var_attributes "_*subset_index_reference" with
        | none => rw [hv] at hres; simp at hres
        | some v =>
            cases v with
            | str s =>
                rw [hv] at hres
                exact row_col_strategy_ne_missing_start datatree s
                  dimension_variable_path hres
            | int n => rw [hv] at hres; simp at hres
            | list l => rw [hv] at hres; simp at hres
            | null => rw [hv] at hres; simp at hres
      · intro hrhs
        exact absurd htr (by simp [hrhs.1])
    · have htr2 : optTruthy (var_attributes "_*subset_index_reference") = false :=
        Bool.eq_false_iff.mpr htr
      by_cases hc : var_attributes "_*corner_point_offsets" =
          some (Value.str "history_subset_index_ranges")
      · constructor
        · intro hres
          rw [get_grid_start_index, htr2] at hres
          simp [hc] at hres
        · intro hrhs
          exact absurd hc hrhs.2
      · constructor
        · intro _
          exact ⟨htr2, hc⟩
        · intro _
          rw [get_grid_start_index, htr2]
          simp [hc]
  · intro s hs hsne _ map2
    have htr : optTruthy (var_attributes "_*subset_index_reference") = true := by
      rw [hs]
      simp [optTruthy, Value.truthy, hsne]
    constructor
    · rw [get_grid_start_index, htr]
      simp only [if_true, hs]
    · rw [get_grid_start_index, get_grid_start_index, htr]
      simp only [if_true]

/-- Witness for the C7 theorem at a concrete input: with no strategy
configured, resolution fails with `MissingStartIndexConfiguration`. -/
theorem get_grid_start_index_spec_witness :
    get_grid_start_index (fun _ => none) [] "/x_dim" (fun _ => none) =
      Except.error (AnnotatorError.missingStartIndexConfiguration "/x_dim") :=
  (get_grid_start_index_spec (fun _ => none) [] "/x_dim" (fun _ => none)).1.mpr
    ⟨rfl, by simp⟩

/-- C8: applying metadata edits never writes or deletes a temporary-named
attribute on the node: after `update_metadata_attributes`, every attribute
whose name carries the temporary prefix holds exactly the value it held
before. -/
theorem update_metadata_attributes_temporary_unchanged
    (matching_overrides : List (String × Value)) (attrs : Attrs) (name : String)
    (h : is_temporary_attribute name = true) :
    update_metadata_attributes matching_overrides attrs name = attrs name := by
  have hU : name ∉ (attributes_to_update matching_overrides).map Prod.fst := by
    intro hmem
    rcases List.mem_map.mp hmem with ⟨p, hp, hpe⟩
    have hpred := (List.mem_filter.mp hp).2
    have h1 : is_temporary_attribute p.1 = false := by
      rcases (Bool.and_eq_true _ _).mp hpred with ⟨ha, _⟩
      simpa using ha
    rw [hpe, h] at h1
    simp at h1
  have hD : name ∉ attributes_to_delete matching_overrides := by
    intro hmem
    have hsplit := List.mem_filter.mp hmem
    have h2 := ((Bool.and_eq_true _ _).mp hsplit.2).2
    rcases List.mem_map.mp hsplit.1 with ⟨p, hp, hpe⟩
    have hk : name ∈ (temp_attributes matching_overrides).map Prod.fst := by
      refine List.mem_map.mpr ⟨p, ?_, hpe⟩
      exact List.mem_filter.mpr ⟨hp, by rw [hpe]; exact h⟩
    have hc : ((temp_attributes matching_overrides).map Prod.fst).contains name = true := by
      simpa [List.contains, List.elem_iff] using hk
    rw [hc] at h2
    simp at h2
  rw [update_metadata_attributes,
    applyDeletes_apply_of_not_mem _ _ _ hD,
    applyUpdates_apply_of_not_mem _ _ _ hU]

/-- Witness for the C8 theorem at a concrete input: a temporary-named
override entry is not written to a node that lacked the attribute. -/
theorem update_metadata_attributes_temporary_unchanged_witness :
    update_metadata_attributes [("_*a", Value.str "v")] (fun _ => none) "_*a" =
      none :=
  update_metadata_attributes_temporary_unchanged
    [("_*a", Value.str "v")] (fun _ => none) "_*a" (by decide)

/-- C9: a null-valued, non-temporary override entry deletes the attribute
when present and is a no-op when absent; the raw deletion of an absent
attribute raises `KeyError`, which `update_metadata_attributes` swallows,
so it never fails because an attribute named for deletion is missing. -/
theorem update_metadata_attributes_null_deletes
    (matching_overrides : List (String × Value)) (attrs : Attrs) (name : String)
    (hnd : (matching_overrides.map Prod.fst).Nodup)
    (hmem : (name, Value.null) ∈ matching_overrides)
    (htemp : is_temporary_attribute name = false) :
    update_metadata_attributes matching_overrides attrs name = none ∧
    (∀ a : Attrs, ∀ k : String, a k = none →
      delAttrChecked a k = Except.error (AnnotatorError.keyError k) ∧
        tryDelAttr a k = a) := by
  constructor
  · have hinj := List.inj_on_of_nodup_map hnd
    have hU : name ∉ (attributes_to_update matching_overrides).map Prod.fst := by
      intro hm
      rcases List.mem_map.mp hm with ⟨p, hp, hpe⟩
      have hfil := List.mem_filter.mp hp
      have hpeq : p = (name, Value.null) := hinj hfil.1 hmem hpe
      rcases (Bool.and_eq_true _ _).mp hfil.2 with ⟨_, hb⟩
      rw [hpeq] at hb
      simp at hb
    have hT : name ∉ (temp_attributes matching_overrides).map Prod.fst := by
      intro hm
      rcases List.mem_map.mp hm with ⟨p, hp, hpe⟩
      have hfil := List.mem_filter.mp hp
      rw [hpe, htemp] at hfil
      simp at hfil
    have hUc : ((attributes_to_update matching_overrides).map Prod.fst).contains name
        = false := by
      rw [Bool.eq_false_iff]
      intro hc
      exact hU (by simpa [List.contains, List.elem_iff] using hc)
    have hTc : ((temp_attributes matching_overrides).map Prod.fst).contains name
        = false := by
      rw [Bool.eq_false_iff]
      intro hc
      exact hT (by simpa [List.contains, List.elem_iff] using hc)
    have hdel : name ∈ attributes_to_delete matching_overrides := by
      refine List.mem_filter.mpr ⟨List.mem_map.mpr ⟨(name, Value.null), hmem, rfl⟩, ?_⟩
      rw [hUc, hTc]
      rfl
    rw [update_metadata_attributes]
    exact applyDeletes_apply_of_mem _ _ _ hdel
  · intro a k hk
    have hks : (a k).isSome = false := by rw [hk]; rfl
    constructor
    · simp [delAttrChecked, hks]
    · simp [tryDelAttr, delAttrChecked, hks]

/-- Witness for the C9 theorem at a concrete input: a null override deletes
the present attribute, and deleting an absent one is a swallowed no-op. -/
theorem update_metadata_attributes_null_deletes_witness :
    update_metadata_attributes [("gone", Value.null)]
        (fun n => if n = "gone" then some (Value.str "old") else none) "gone" =
      none :=
  (update_metadata_attributes_null_deletes [("gone", Value.null)]
      (fun n => if n = "gone" then some (Value.str "old") else none) "gone"
      (by decide) (by decide) (by decide)).1

/-- C10: for a variable whose `dimensions` attribute lists at least one
semantic name, a count differing from the variable's positional dimension
count raises `InvalidDimensionsConfiguration` carrying the variable path
and both counts; equal counts rename the positional dimensions in order to
the listed names. -/
theorem update_dimension_names_spec (variable_to_update dimensions_attr : String)
    (dims : List String)
    (hne : pySplitWhitespace dimensions_attr ≠ []) :
    (dims.length ≠ (pySplitWhitespace dimensions_attr).length →
      update_dimension_names variable_to_update dimensions_attr dims =
        Except.error
          (AnnotatorError.invalidDimensionsConfiguration variable_to_update
            (pySplitWhitespace dimensions_attr).length dims.length)) ∧
    (dims.length = (pySplitWhitespace dimensions_attr).length → dims.Nodup →
      update_dimension_names variable_to_update dimensions_attr dims =
        Except.ok (pySplitWhitespace dimensions_attr)) := by
  have hb : (pySplitWhitespace dimensions_attr).isEmpty = false := by
    rw [Bool.eq_false_iff]
    intro hE
    exact hne (List.isEmpty_iff.mp hE)
  constructor
  · intro hdiff
    simp [update_dimension_names, hb, hdiff]
  · intro heq hnd
    rw [update_dimension_names]
    simp only [hb, Bool.false_eq_true, if_false, heq, ne_eq, not_true_eq_false]
    have htake : List.take (pySplitWhitespace dimensions_attr).length dims = dims := by
      rw [← heq]
      exact List.take_length dims
    rw [htake]
    exact congrArg Except.ok (map_dictZip_reverse dims _ heq hnd)

/-- Witness for the C10 theorem at a concrete input: a two-name rename list
against a two-dimensional variable renames both dimensions in order. -/
theorem update_dimension_names_spec_witness :
    update_dimension_names "/v" "a b" ["dim0", "dim1"] = Except.ok ["a", "b"] := by
  have h := (update_dimension_names_spec "/v" "a b" ["dim0", "dim1"] (by decide)).2
    (by decide) (by decide)
  exact h

theorem gmgv_missing_sound
    (patterns groups vars : List String) (m miss : List String)
    (h : get_matching_groups_and_variables patterns groups vars =
      Except.ok (m, miss)) :
    ∀ p ∈ miss, ∃ r, re_compile p = some r ∧
      groups.filter (fun g => re_match r g) = [] ∧
      vars.filter (fun w => re_match r w) = [] ∧
      is_exact_path p = true := by
  induction patterns generalizing m miss with
  | nil =>
      simp only [get_matching_groups_and_variables, Except.ok.injEq,
        Prod.mk.injEq] at h
      intro p hp
      rw [← h.2] at hp
      cases hp
  | cons q ps ih =>
      cases hc : re_compile q with
      | none => simp [get_matching_groups_and_variables, hc] at h
      | some rq =>
          cases hrec : get_matching_groups_and_variables ps groups vars with
          | error e => simp [get_matching_groups_and_variables, hc, hrec] at h
          | ok pr =>
              obtain ⟨m2, miss2⟩ := pr
              simp only [get_matching_groups_and_variables, hc, hrec,
                Except.ok.injEq, Prod.mk.injEq] at h
              obtain ⟨hm, hmiss⟩ := h
              intro p hp
              rw [← hmiss] at hp
              by_cases hcond : ((groups.filter (fun g => re_match rq g) ++
                  vars.filter (fun w => re_match rq w)).isEmpty &&
                  is_exact_path q) = true
              · rw [if_pos hcond] at hp
                rcases List.mem_cons.mp hp with rfl | hp2
                · rcases (Bool.and_eq_true _ _).mp hcond with ⟨hemp, hex⟩
                  have hemp2 := List.isEmpty_iff.mp hemp
                  rcases List.append_eq_nil.mp hemp2 with ⟨hg0, hv0⟩
                  exact ⟨rq, hc, hg0, hv0, hex⟩
                · exact ih m2 miss2 hrec p hp2
              · rw [if_neg hcond] at hp
                exact ih m2 miss2 hrec p hp

theorem gmgv_missing_complete
    (patterns groups vars : List String) (m miss : List String)
    (p : String) (r : Regex)
    (h : get_matching_groups_and_variables patterns groups vars =
      Except.ok (m, miss))
    (hp : p ∈ patterns) (hr : re_compile p = some r)
    (hg0 : groups.filter (fun g => re_match r g) = [])
    (hv0 : vars.filter (fun w => re_match r w) = [])
    (hex : is_exact_path p = true) :
    p ∈ miss := by
  induction patterns generalizing m miss with
  | nil => cases hp
  | cons q ps ih =>
      cases hc : re_compile q with
      | none => simp [get_matching_groups_and_variables, hc] at h
      | some rq =>
          cases hrec : get_matching_groups_and_variables ps groups vars with
          | error e => simp [get_matching_groups_and_variables, hc, hrec] at h
          | ok pr =>
              obtain ⟨m2, miss2⟩ := pr
              simp only [get_matching_groups_and_variables, hc, hrec,
                Except.ok.injEq, Prod.mk.injEq] at h
              obtain ⟨hm, hmiss⟩ := h
              rw [← hmiss]
              rcases List.mem_cons.mp hp with rfl | hp2
              · rw [hr] at hc
                injection hc with h3
                subst h3
                have hcond : ((groups.filter (fun g => re_match r g) ++
                    vars.filter (fun w => re_match r w)).isEmpty &&
                    is_exact_path p) = true := by
                  rw [hg0, hv0, hex]
                  rfl
                rw [if_pos hcond]
                exact List.mem_cons_self _ _
              · have hpm := ih m2 miss2 hrec hp2
                by_cases hcond : ((groups.filter (fun g => re_match rq g) ++
                    vars.filter (fun w => re_match rq w)).isEmpty &&
                    is_exact_path q) = true
                · rw [if_pos hcond]
                  exact List.mem_cons_of_mem _ hpm
                · rw [if_neg hcond]
                  exact hpm

theorem gmgv_matches_sound
    (patterns groups vars : List String) (m miss : List String)
    (h : get_matching_groups_and_variables patterns groups vars =
      Except.ok (m, miss)) :
    ∀ x ∈ m, (x ∈ groups ∨ x ∈ vars) ∧
      ∃ p ∈ patterns, ∃ r, re_compile p = some r ∧ re_match r x = true := by
  induction patterns generalizing m miss with
  | nil =>
      simp only [get_matching_groups_and_variables, Except.ok.injEq,
        Prod.mk.injEq] at h
      intro x hx
      rw [← h.1] at hx
      cases hx
  | cons q ps ih =>
      cases hc : re_compile q with
      | none => simp [get_matching_groups_and_variables, hc] at h
      | some rq =>
          cases hrec : get_matching_groups_and_variables ps groups vars with
          | error e => simp [get_matching_groups_and_variables, hc, hrec] at h
          | ok pr =>
              obtain ⟨m2, miss2⟩ := pr
              simp only [get_matching_groups_and_variables, hc, hrec,
                Except.ok.injEq, Prod.mk.injEq] at h
              obtain ⟨hm, hmiss⟩ := h
              intro x hx
              rw [← hm] at hx
              rcases List.mem_append.mp hx with hx1 | hx2
              · rcases List.mem_append.mp hx1 with hxg | hxv
                · rcases List.mem_filter.mp hxg with ⟨hxin, hxm⟩
                  exact ⟨Or.inl hxin, q, List.mem_cons_self _ _, rq, hc, hxm⟩
                · rcases List.mem_filter.mp hxv with ⟨hxin, hxm⟩
                  exact ⟨Or.inr hxin, q, List.mem_cons_self _ _, rq, hc, hxm⟩
              · rcases ih m2 miss2 hrec x hx2 with ⟨hside, p, hpin, r, hcp, hmx⟩
                exact ⟨hside, p, List.mem_cons_of_mem _ hpin, r, hcp, hmx⟩

theorem gmgv_matches_complete
    (patterns groups vars : List String) (m miss : List String)
    (x p : String) (r : Regex)
    (h : get_matching_groups_and_variables patterns groups vars =
      Except.ok (m, miss))
    (hp : p ∈ patterns) (hr : re_compile p = some r)
    (hmx : re_match r x = true) (hside : x ∈ groups ∨ x ∈ vars) :
    x ∈ m := by
  induction patterns generalizing m miss with
  | nil => cases hp
  | cons q ps ih =>
      cases hc : re_compile q with
      | none => simp [get_matching_groups_and_variables, hc] at h
      | some rq =>
          cases hrec : get_matching_groups_and_variables ps groups vars with
          | error e => simp [get_matching_groups_and_variables, hc, hrec] at h
          | ok pr =>
              obtain ⟨m2, miss2⟩ := pr
              simp only [get_matching_groups_and_variables, hc, hrec,
                Except.ok.injEq, Prod.mk.injEq] at h
              obtain ⟨hm, hmiss⟩ := h
              rw [← hm]
              rcases List.mem_cons.mp hp with rfl | hp2
              · rw [hr] at hc
                injection hc with h3
                subst h3
                refine List.mem_append.mpr (Or.inl ?_)
                rcases hside with hxg | hxv
                · exact List.mem_append.mpr (Or.inl (List.mem_filter.mpr ⟨hxg, hmx⟩))
                · exact List.mem_append.mpr (Or.inr (List.mem_filter.mpr ⟨hxv, hmx⟩))
              · exact List.mem_append.mpr
                  (Or.inr (ih m2 miss2 hrec hp2))

/-- C1 (amended): for every live rule pattern and every group or variable
path, the ConfigResolver includes the path in the MatchSet iff the
compiled pattern matches at the beginning of the path string (the match is
anchored at the start only, not at the end); a pattern matching only a
proper prefix of a path still selects that path. -/
theorem get_matching_anchored_start_spec
    (patterns groups vars : List String) (m miss : List String)
    (h : get_matching_groups_and_variables patterns groups vars =
      Except.ok (m, miss))
    (x : String) :
    x ∈ m ↔ ((x ∈ groups ∨ x ∈ vars) ∧
      ∃ p ∈ patterns, ∃ r, re_compile p = some r ∧ re_match r x = true) := by
  constructor
  · intro hx
    exact gmgv_matches_sound patterns groups vars m miss h x hx
  · rintro ⟨hside, p, hp, r, hr, hmx⟩
    exact gmgv_matches_complete patterns groups vars m miss x p r h hp hr hmx hside

/-- C1 counterexample: the literal pattern `/a` full-matches only the path
`/a`, yet the ConfigResolver selects the path `/ab`, of which the pattern
matches only a proper prefix — so membership in the MatchSet is not
equivalent to an anchored-at-both-ends full match. -/
theorem get_matching_fullmatch_counterexample :
    get_matching_groups_and_variables ["/a"] ["/ab"] [] =
      Except.ok (["/ab"], []) ∧
    (re_compile "/a").map (fun r => re_fullmatch r "/ab") = some false ∧
    (re_compile "/a").map (fun r => re_match r "/ab") = some true :=
  ⟨rfl, rfl, rfl⟩

/-- Witness for the C1 theorem at a concrete input: the pattern `/x`
selects the path `/xy` of which it matches only a proper prefix. -/
theorem get_matching_anchored_start_spec_witness :
    "/xy" ∈ (["/xy"] : List String) :=
  (get_matching_anchored_start_spec ["/x"] ["/xy"] [] ["/xy"] [] rfl "/xy").mpr
    ⟨Or.inl (List.mem_cons_self _ _), "/x", List.mem_cons_self _ _,
      Regex.concat (Regex.char '/') (Regex.concat (Regex.char 'x') Regex.eps),
      rfl, by decide⟩

/-- C4: a rule pattern is recorded in the missing-variable (synthesizable)
set iff it has zero hits against the namespace and regex-escaping the
pattern string reproduces it unchanged; a zero-hit wildcard or alternation
pattern is ignored, and a pattern with at least one hit is never recorded
as missing. -/
theorem missing_variables_iff_exact_zero_hits
    (patterns groups vars : List String) (m miss : List String)
    (p : String) (r : Regex)
    (h : get_matching_groups_and_variables patterns groups vars =
      Except.ok (m, miss))
    (hp : p ∈ patterns) (hr : re_compile p = some r) :
    p ∈ miss ↔ (groups.filter (fun g => re_match r g) = [] ∧
      vars.filter (fun w => re_match r w) = [] ∧ is_exact_path p = true) := by
  constructor
  · intro hmiss
    rcases gmgv_missing_sound patterns groups vars m miss h p hmiss with
      ⟨r2, hr2, hg0, hv0, hex⟩
    rw [hr] at hr2
    injection hr2 with h3
    subst h3
    exact ⟨hg0, hv0, hex⟩
  · rintro ⟨hg0, hv0, hex⟩
    exact gmgv_missing_complete patterns groups vars m miss p r h hp hr hg0 hv0 hex

/-- Witness for the C4 theorem at a concrete input: the exact path
`/missing_var` with zero hits lands in the missing set, and the theorem
recovers that it contains no regex metacharacters. -/
theorem missing_variables_iff_exact_zero_hits_witness :
    is_exact_path "/missing_var" = true := by
  obtain ⟨r, hr⟩ : ∃ r, re_compile "/missing_var" = some r := ⟨_, rfl⟩
  exact ((missing_variables_iff_exact_zero_hits ["/missing_var"] ["/present"] []
      [] ["/missing_var"] "/missing_var" r rfl (List.mem_cons_self _ _) hr).mp
      (List.mem_cons_self _ _)).2.2

theorem firstIdxOf_append_cons (c : Char) (l₁ l₂ : List Char)
    (h : ∀ a ∈ l₁, a ≠ c) :
    firstIdxOf c (l₁ ++ c :: l₂) = some l₁.length := by
  induction l₁ with
  | nil => simp [firstIdxOf]
  | cons a t ih =>
      have ha : a ≠ c := h a (List.mem_cons_self _ _)
      have ht : ∀ x ∈ t, x ≠ c := fun x hx => h x (List.mem_cons_of_mem _ hx)
      simp [firstIdxOf, ha, ih ht]

theorem flatten_bracketed_cons (g : String) (rest : List String) :
    ((g :: rest).map bracketed).flatten =
      '[' :: (g.data ++ ']' :: (rest.map bracketed).flatten) := by
  simp [bracketed]

theorem flatten_bracketed_ne_nil (gs : List String) (h : gs ≠ []) :
    (gs.map bracketed).flatten ≠ [] := by
  obtain ⟨g, rest, rfl⟩ := List.exists_cons_of_ne_nil h
  rw [flatten_bracketed_cons]
  exact List.cons_ne_nil _ _

theorem flatten_bracketed_ends_rbracket (gs : List String) :
    gs ≠ [] → ∃ t, (gs.map bracketed).flatten = t ++ [']'] := by
  induction gs with
  | nil => intro h; exact absurd rfl h
  | cons g rest ih =>
      intro _
      cases hrest : rest with
      | nil =>
          refine ⟨'[' :: g.data, ?_⟩
          simp [bracketed]
      | cons g2 rest2 =>
          obtain ⟨t, ht⟩ := ih (by rw [hrest]; exact List.cons_ne_nil _ _)
          rw [hrest] at ht
          refine ⟨bracketed g ++ t, ?_⟩
          rw [List.map_cons, List.flatten_cons, ht, List.append_assoc]

theorem findAux_none_lbracket (l : List Char) :
    findBracketGroupsAux none ('[' :: l) = findBracketGroupsAux (some []) l := by
  simp [findBracketGroupsAux]

theorem findAux_in_bracket (content : List Char) (acc rest : List Char)
    (h : ']' ∉ content) :
    findBracketGroupsAux (some acc) (content ++ ']' :: rest) =
      (acc.reverse ++ content) :: findBracketGroupsAux none rest := by
  induction content generalizing acc with
  | nil => simp [findBracketGroupsAux]
  | cons c t ih =>
      have hc : c ≠ ']' := by
        intro he
        exact h (he ▸ List.mem_cons_self _ _)
      have ht : ']' ∉ t := fun hm => h (List.mem_cons_of_mem _ hm)
      rw [List.cons_append]
      show (if c = ']' then _ else findBracketGroupsAux (some (c :: acc)) _) = _
      rw [if_neg hc, ih (c :: acc) ht]
      simp

theorem findBracketGroups_flatten (gs : List String)
    (h : ∀ g ∈ gs, ']' ∉ g.data) :
    findBracketGroups ((gs.map bracketed).flatten) = gs.map String.data := by
  induction gs with
  | nil => rfl
  | cons g rest ih =>
      have hg : ']' ∉ g.data := h g (List.mem_cons_self _ _)
      have hrest : ∀ x ∈ rest, ']' ∉ x.data :=
        fun x hx => h x (List.mem_cons_of_mem _ hx)
      calc findBracketGroups (((g :: rest).map bracketed).flatten)
          = findBracketGroupsAux none
              ('[' :: (g.data ++ ']' :: ((rest.map bracketed).flatten))) := by
            rw [findBracketGroups, flatten_bracketed_cons]
        _ = findBracketGroupsAux (some [])
              (g.data ++ ']' :: ((rest.map bracketed).flatten)) :=
            findAux_none_lbracket _
        _ = (List.reverse [] ++ g.data) ::
              findBracketGroupsAux none ((rest.map bracketed).flatten) :=
            findAux_in_bracket g.data [] _ hg
        _ = g.data :: findBracketGroups ((rest.map bracketed).flatten) := by
            simp [findBracketGroups]
        _ = g.data :: rest.map String.data := by rw [ih hrest]
        _ = (g :: rest).map String.data := rfl

theorem entryStartIndices_eq (gs : List String)
    (h : ∀ g ∈ gs, g = "" ∨ ∃ n, py_int (pyFirstColonField g) = some n) :
    entryStartIndices gs = some (gs.map claimedStartIndex) := by
  induction gs with
  | nil => rfl
  | cons g rest ih =>
      have hrest := fun x hx => h x (List.mem_cons_of_mem _ hx)
      have ihr := ih hrest
      rw [entryStartIndices] at ihr ⊢
      rw [List.mapM_cons, ihr]
      rcases h g (List.mem_cons_self _ _) with he | ⟨n, hn⟩
      · subst he
        simp [claimedStartIndex]
      · have hgne : g ≠ "" := by
          intro he
          rw [he] at hn
          rw [show py_int (pyFirstColonField "") = none from rfl] at hn
          cases hn
        simp [hgne, hn, claimedStartIndex]

theorem get_index_range_substring_entry (v : String) (gs : List String)
    (hgs : gs ≠ []) (hv : '[' ∉ v.data) (hg : ∀ g ∈ gs, ']' ∉ g.data) :
    get_index_range_substring (historyEntry v gs) = (v, gs) := by
  obtain ⟨g0, rest0, rfl⟩ := List.exists_cons_of_ne_nil hgs
  have hflatne : ((g0 :: rest0).map bracketed).flatten ≠ [] :=
    flatten_bracketed_ne_nil _ (List.cons_ne_nil _ _)
  have hdata : (historyEntry v (g0 :: rest0)).data =
      v.data ++ ((g0 :: rest0).map bracketed).flatten := rfl
  have hne : historyEntry v (g0 :: rest0) ≠ "" := by
    intro he
    have h2 : (historyEntry v (g0 :: rest0)).data = [] := by rw [he]
    rw [hdata] at h2
    exact hflatne (List.append_eq_nil.mp h2).2
  have hflen : 0 < ((g0 :: rest0).map bracketed).flatten.length :=
    List.length_pos.mpr hflatne
  -- first '[' is at position v.data.length
  have j1 : firstIdxOf '[' (historyEntry v (g0 :: rest0)).data =
      some v.data.length := by
    rw [hdata, flatten_bracketed_cons]
    exact firstIdxOf_append_cons '[' v.data _ (fun a ha he => hv (he ▸ ha))
  -- last ']' is the final character
  have j2 : firstIdxOf ']' (historyEntry v (g0 :: rest0)).data.reverse =
      some 0 := by
    obtain ⟨t, ht⟩ :=
      flatten_bracketed_ends_rbracket (g0 :: rest0) (List.cons_ne_nil _ _)
    rw [hdata, ht, ← List.append_assoc, List.reverse_append]
    simp [firstIdxOf]
  rw [get_index_range_substring, if_neg hne]
  simp only [j1, j2]
  have hlen : (historyEntry v (g0 :: rest0)).data.length =
      v.data.length + ((g0 :: rest0).map bracketed).flatten.length := by
    rw [hdata, List.length_append]
  have hle : v.data.length ≤ (historyEntry v (g0 :: rest0)).data.length - 1 - 0 := by
    omega
  rw [if_pos hle]
  have htake : (historyEntry v (g0 :: rest0)).data.take v.data.length = v.data := by
    rw [hdata]
    exact List.take_left v.data _
  have hdrop : (historyEntry v (g0 :: rest0)).data.drop v.data.length =
      ((g0 :: rest0).map bracketed).flatten := by
    rw [hdata]
    exact List.drop_left v.data _
  have hcount : (historyEntry v (g0 :: rest0)).data.length - 1 - 0 + 1 -
      v.data.length = ((g0 :: rest0).map bracketed).flatten.length := by
    omega
  rw [htake, hdrop, hcount, List.take_length,
    findBracketGroups_flatten (g0 :: rest0) hg]
  refine Prod.ext ?_ ?_
  · rfl
  · show ((g0 :: rest0).map String.data).map String.mk = g0 :: rest0
    calc ((g0 :: rest0).map String.data).map String.mk
        = (g0 :: rest0).map (fun s => String.mk s.data) := by
          rw [List.map_map]
          rfl
      _ = (g0 :: rest0).map id := List.map_congr_left (fun s _ => rfl)
      _ = g0 :: rest0 := List.map_id _

/-- C6: a history provenance entry `VARIABLE_PATH[r0:r1][r2:r3]...` parses
to the variable path (the text preceding the first `[`) and one start
index per bracket group — the left side of `:`, or 0 for an empty bracket.
The hypotheses state well-formedness: at least one bracket group, no `[`
in the variable path, no `]` inside a group, and a parsable left index in
every non-empty group. -/
theorem parse_history_entry_spec (v : String) (gs : List String)
    (hgs : gs ≠ []) (hv : '[' ∉ v.data)
    (hg : ∀ g ∈ gs, ']' ∉ g.data)
    (hparse : ∀ g ∈ gs, g = "" ∨ ∃ n, py_int (pyFirstColonField g) = some n) :
    parse_history_entry (historyEntry v gs) =
      some (v, gs.map claimedStartIndex) := by
  simp only [parse_history_entry, get_index_range_substring_entry v gs hgs hv hg,
    entryStartIndices_eq gs hparse]
  rfl

/-- Witness for the C6 theorem at the claim's concrete input: parsing
`/g/surface_flag[][16:44][227:278]` yields `/g/surface_flag` with start
offsets 0, 16 and 227. -/
theorem parse_history_entry_spec_witness :
    parse_history_entry "/g/surface_flag[][16:44][227:278]" =
      some ("/g/surface_flag", [0, 16, 227]) := by
  have h := parse_history_entry_spec "/g/surface_flag" ["", "16:44", "227:278"]
    (by decide) (by decide) (by decide)
    (by
      intro g hgmem
      simp only [List.mem_cons, List.not_mem_nil, or_false] at hgmem
      rcases hgmem with rfl | rfl | rfl
      · left; rfl
      · right; exact ⟨16, by decide⟩
      · right; exact ⟨227, by decide⟩)
  exact h

end MetadataAnnotator
